import Mathlib

/-
Shallow embedding of the core of bert2/build-your-own-git (Rust) used to
settle the frozen claims. Bytes are modelled as Nat (values < 256 where it
matters), Rust byte slices as List Nat, Rust strings as their ASCII byte
lists. External collaborators (zlib codec, SHA-1 digest, HTTP) are taken as
function parameters, following the spec, which treats them as black boxes
with fixed interfaces. Fallible Rust code returns Except or Res; Res also
records panics (out-of-bounds slicing, unwrap on None) separately from
ordinary errors.
-/

namespace BYOG

/-- Byte list of an ASCII string (each char is one byte). -/
def strBytes (s : String) : List Nat := s.data.map Char.toNat

/-- Position of the first byte satisfying p, as in Iterator::position. -/
def findPosBy (p : Nat → Bool) : List Nat → Option Nat
  | [] => none
  | b :: bs => if p b then some 0 else (findPosBy p bs).map (· + 1)

/-- Position of the first occurrence of byte b. -/
def findPos (b : Nat) (bs : List Nat) : Option Nat := findPosBy (· = b) bs

/-- splitn(2, sep): the part before the first separator and, when a
separator exists, the rest after it. -/
def splitn2 (sep : Nat) (bs : List Nat) : List Nat × Option (List Nat) :=
  match findPos sep bs with
  | none => (bs, none)
  | some i => (bs.take i, some (bs.drop (i + 1)))

/-- split(sep) followed by two calls of next(): the first component and,
when a separator exists, the second component (which ends at the next
separator, unlike splitn2). -/
def splitFirst2 (sep : Nat) (bs : List Nat) : List Nat × Option (List Nat) :=
  match findPos sep bs with
  | none => (bs, none)
  | some i =>
    let rest := bs.drop (i + 1)
    match findPos sep rest with
    | none => (bs.take i, some rest)
    | some j => (bs.take i, some (rest.take j))

/-- Decimal digits of n, least significant first, with explicit fuel
(fuel at least n suffices). -/
def decDigitsAux : Nat → Nat → List Nat
  | 0, _ => []
  | _, 0 => []
  | fuel + 1, n => (n % 10) :: decDigitsAux fuel (n / 10)

/-- ASCII bytes of the usual decimal rendering of n (Rust format). -/
def natToDecBytes (n : Nat) : List Nat :=
  if n = 0 then [48] else ((decDigitsAux n n).reverse.map (· + 48))

/-- Is b the ASCII code of a decimal digit. -/
def isDigitByte (b : Nat) : Bool := 48 ≤ b ∧ b ≤ 57

/-- usize::from_str on ASCII bytes (digits only, nonempty). -/
def decBytes? (bs : List Nat) : Option Nat :=
  if bs ≠ [] ∧ bs.all isDigitByte then
    some (bs.foldl (fun a b => 10 * a + (b - 48)) 0)
  else none

/-- Lowercase hex digit for n < 16. -/
def hexDig (n : Nat) : Nat := if n < 10 then 48 + n else 87 + n

/-- util::print_hex: two lowercase hex digits per byte. -/
def printHex (bs : List Nat) : List Nat :=
  (bs.map (fun b => [hexDig (b / 16), hexDig (b % 16)])).flatten

/-- Value of a single hex digit byte, lowercase or uppercase. -/
def hexVal? (b : Nat) : Option Nat :=
  if 48 ≤ b ∧ b ≤ 57 then some (b - 48)
  else if 97 ≤ b ∧ b ≤ 102 then some (b - 87)
  else if 65 ≤ b ∧ b ≤ 70 then some (b - 55)
  else none

/-- util::decode_hex: pairs of hex digits to bytes (even length required). -/
def hexDecode? : List Nat → Option (List Nat)
  | [] => some []
  | [_] => none
  | a :: b :: rest =>
    match hexVal? a, hexVal? b, hexDecode? rest with
    | some x, some y, some r => some ((16 * x + y) :: r)
    | _, _, _ => none

/-! UTF-8 decoding, modelling the validation done by read_to_string in the
Rust standard library (RFC 3629: no overlong forms, no surrogates, no code
points above 0x10FFFF). Returns the decoded scalar values, or none when the
byte sequence is not valid UTF-8. -/

/-- Is b a UTF-8 continuation byte (0x80..0xBF). -/
def isContByte (b : Nat) : Bool := 128 ≤ b ∧ b ≤ 191

/-- Valid second byte of a three-byte sequence led by b. -/
def utf8Second3 (b c1 : Nat) : Bool :=
  (b = 224 && (160 ≤ c1 && c1 ≤ 191)) ||
  (225 ≤ b && b ≤ 236 && isContByte c1) ||
  (b = 237 && (128 ≤ c1 && c1 ≤ 159)) ||
  (238 ≤ b && b ≤ 239 && isContByte c1)

/-- Valid second byte of a four-byte sequence led by b. -/
def utf8Second4 (b c1 : Nat) : Bool :=
  (b = 240 && (144 ≤ c1 && c1 ≤ 191)) ||
  (241 ≤ b && b ≤ 243 && isContByte c1) ||
  (b = 244 && (128 ≤ c1 && c1 ≤ 143))

/-- UTF-8 decoder: list of scalar values, or none for invalid input. -/
def utf8Decode : List Nat → Option (List Nat)
  | [] => some []
  | b :: rest =>
    if b ≤ 127 then (utf8Decode rest).map (b :: ·)
    else
      match rest with
      | [] => none
      | c1 :: rest1 =>
        if 194 ≤ b && b ≤ 223 && isContByte c1 then
          (utf8Decode rest1).map (((b - 192) * 64 + (c1 - 128)) :: ·)
        else
          match rest1 with
          | [] => none
          | c2 :: rest2 =>
            if utf8Second3 b c1 && isContByte c2 then
              (utf8Decode rest2).map
                (((b - 224) * 4096 + (c1 - 128) * 64 + (c2 - 128)) :: ·)
            else
              match rest2 with
              | [] => none
              | c3 :: rest3 =>
                if utf8Second4 b c1 && isContByte c2 && isContByte c3 then
                  (utf8Decode rest3).map
                    (((b - 240) * 262144 + (c1 - 128) * 4096 +
                      (c2 - 128) * 64 + (c3 - 128)) :: ·)
                else none

/-! Identifier (src/sha.rs). Sha wraps the 40-character hex string form;
validate checks only the length (line 47-52), from_str validates then
stores the string unchanged (line 32-35). -/

/-- Sha::validate on the byte form of the string. -/
def shaValidate (s : List Nat) : Except String Unit :=
  if s.length = 40 then .ok ()
  else .error "String is not a valid SHA. Expected 40 characters."

/-- Sha::from_str: validate, then wrap the string unchanged. -/
def shaFromStr (s : List Nat) : Except String (List Nat) :=
  match shaValidate s with
  | .ok _ => .ok s
  | .error e => .error e

/-- Sha::from_bytes: require exactly 20 bytes, store the hex rendering. -/
def shaFromBytes (b : List Nat) : Except String (List Nat) :=
  if b.length = 20 then .ok (printHex b)
  else .error "Array slice is not a valid SHA. Expected 20 bytes."

/-! Ref-discovery URLs. ls_remote in src/main.rs (line 176) appends the
service query for git-receive-pack to the raw URL; get_advertised_refs in
src/pack.rs (line 34) trims trailing slashes and appends the query for
git-upload-pack. Both requests are HTTP GET. -/

/-- str::trim_end_matches for one byte: drop all trailing occurrences. -/
def trimEndByte (b : Nat) (bs : List Nat) : List Nat :=
  (bs.reverse.dropWhile (· = b)).reverse

/-- An HTTP request as issued by the core: method and URL bytes. -/
structure HttpReq where
  method : List Nat
  url : List Nat
deriving DecidableEq

/-- The ref-discovery request built by ls_remote (src/main.rs line 174-179). -/
def lsRemoteReq (url : List Nat) : HttpReq :=
  { method := strBytes "GET"
    url := url ++ strBytes "/info/refs?service=git-receive-pack" }

/-- The ref-discovery request built by get_advertised_refs
(src/pack.rs line 34-36), also used by clone. -/
def advertisedRefsReq (url : List Nat) : HttpReq :=
  { method := strBytes "GET"
    url := trimEndByte 47 url ++ strBytes "/info/refs?service=git-upload-pack" }

/-! Working-tree serialization order (src/wtree.rs line 90-96). Directory
entries are sorted by sort_by_key(util::name), a stable sort on the plain
name bytes, then the entry named .git is filtered out. The embedded sort is
a stable insertion sort, extensionally equal to any stable sort by the same
key. -/

/-- A directory entry as seen by write_tree. -/
structure DirEnt where
  name : List Nat
  isDir : Bool
deriving DecidableEq

/-- Byte-wise lexicographic comparison (Rust Ord on [u8] / str). -/
def lexLe : List Nat → List Nat → Bool
  | [], _ => true
  | _ :: _, [] => false
  | a :: as_, b :: bs =>
    if a < b then true else if b < a then false else lexLe as_ bs

/-- Stable insertion into a sorted list: x goes before the first strictly
later key, after earlier-or-equal keys seen so far keep their order. -/
def insertByKey (key : DirEnt → List Nat) (x : DirEnt) :
    List DirEnt → List DirEnt
  | [] => [x]
  | y :: ys => if lexLe (key x) (key y) then x :: y :: ys
               else y :: insertByKey key x ys

/-- Stable sort by key (the semantics of Rust sort_by_key). -/
def sortByKey (key : DirEnt → List Nat) : List DirEnt → List DirEnt
  | [] => []
  | x :: xs => insertByKey key x (sortByKey key xs)

/-- The order in which write_tree emits entries: sort by plain name
(src/wtree.rs line 91), then drop .git (line 93). -/
def writeTreeOrder (es : List DirEnt) : List (List Nat) :=
  ((sortByKey (·.name) es).filter (fun e => e.name ≠ strBytes ".git")).map
    (·.name)

/-- Modelled from the spec (canonical tree order, spec section 4.5): sort
key is the name with a slash appended for directories. This is the order
the claim asserts, stated for comparison with writeTreeOrder. -/
def canonicalTreeOrderSpec (es : List DirEnt) : List (List Nat) :=
  ((sortByKey (fun e => e.name ++ if e.isDir then [47] else []) es).filter
    (fun e => e.name ≠ strBytes ".git")).map (·.name)

/-! Object model and codec (src/obj.rs). The zlib codec is external (spec
section 1): write deflates the framed bytes and read inflates them back, so
the read-write composition is modelled on the framed bytes themselves. The
store is an association list from object id to framed bytes; SHA-1 is a
function parameter producing the 40-character hex id. -/

/-- Object types (src/obj.rs ObjType). -/
inductive ObjType where
  | commit
  | tree
  | blob
  | tag
deriving DecidableEq

/-- A parsed tree entry (src/obj.rs TreeEntry); id is the 40-char hex form. -/
structure TreeEntry where
  mode : Nat
  name : List Nat
  id : List Nat
deriving DecidableEq

/-- The in-memory object (src/obj.rs Obj). A commit holds only its tree id. -/
inductive Obj where
  | commit (tree : List Nat)
  | tree (entries : List TreeEntry)
  | blob (content : List Nat)
deriving DecidableEq

/-- Results of Rust code that can also panic. -/
inductive Res (α : Type) where
  | ok (val : α)
  | err (msg : String)
  | panicked (msg : String)
deriving DecidableEq

def Res.bind {α β : Type} : Res α → (α → Res β) → Res β
  | .ok a, f => f a
  | .err m, _ => .err m
  | .panicked m, _ => .panicked m

instance : Monad Res where
  pure := .ok
  bind := Res.bind

def Res.map' {α β : Type} (f : α → β) : Res α → Res β
  | .ok a => .ok (f a)
  | .err m => .err m
  | .panicked m => .panicked m

/-- ObjType::try_from on the ASCII type word. -/
def objTypeOfBytes (bs : List Nat) : Except String ObjType :=
  if bs = strBytes "commit" then .ok .commit
  else if bs = strBytes "tree" then .ok .tree
  else if bs = strBytes "blob" then .ok .blob
  else if bs = strBytes "tag" then .ok .tag
  else .error "Unknown object type."

/-- The ASCII word of an object type (ObjType::as_str; tag panics there and
is never framed by the code paths modelled here). -/
def objTypeName : ObjType → List Nat
  | .commit => strBytes "commit"
  | .tree => strBytes "tree"
  | .blob => strBytes "blob"
  | .tag => strBytes "tag"

/-- The on-disk framing written by write_gen (src/obj.rs line 206-212):
type word, space, decimal payload length, NUL, payload. -/
def frame (t : ObjType) (content : List Nat) : List Nat :=
  objTypeName t ++ [32] ++ natToDecBytes content.length ++ [0] ++ content

/-- parse_commit (src/obj.rs line 142-167): parse the first line, require
label tree, return the rest of that line; everything after the first line
is dropped. -/
def parseCommit (bytes : List Nat) : Res Obj :=
  match findPos 10 bytes with
  | none => .err "Unexpected EOF."
  | some e =>
    let line := bytes.take e
    match splitn2 32 line with
    | (lbl, data?) =>
      if lbl ≠ strBytes "tree" then .err "Expected label tree."
      else
        match data? with
        | none => .err "Missing data for commit tree."
        | some data =>
          if (utf8Decode data).isSome then .ok (.commit data)
          else .err "Invalid data in commit tree."

/-- One step of iterate_tree (src/obj.rs line 170-198) rendered as a
length-fueled loop; each step consumes at least 21 bytes. Mode and name are
the first two space-separated components before the NUL; the 20 raw id
bytes follow and are hex-printed. Slicing past the end panics in Rust. -/
def parseTreeLoop (fuel : Nat) (bs : List Nat) : Res (List TreeEntry) :=
  match findPos 0 bs with
  | none => .ok []
  | some i =>
    match fuel with
    | 0 => .err "out of fuel"
    | fuel + 1 =>
      let modeName := bs.take i
      match splitFirst2 32 modeName with
      | (modeBytes, name?) =>
        match decBytes? modeBytes with
        | none => .err "Invalid mode in tree entry."
        | some mode =>
          match name? with
          | none => .err "Missing filename in tree entry."
          | some name =>
            if (utf8Decode name).isSome then
              if bs.length < i + 1 + 20 then
                .panicked "slice index out of range"
              else
                let id := printHex ((bs.drop (i + 1)).take 20)
                (parseTreeLoop fuel (bs.drop (i + 1 + 20))).map'
                  (fun rest => ⟨mode, name, id⟩ :: rest)
            else .err "Invalid filename in tree entry."

/-- parse_tree (src/obj.rs line 169-204). -/
def parseTree (bytes : List Nat) : Res Obj :=
  (parseTreeLoop bytes.length bytes).map' Obj.tree

/-- read_gen after inflation (src/obj.rs line 92-121): split the header at
the first NUL, parse the type word and decimal size, check the size against
the remaining payload, then decode per type. -/
def readObjBytes (bytes : List Nat) : Res Obj :=
  match findPos 0 bytes with
  | none => .err "Object has no header."
  | some headerEnd =>
    let header := bytes.take headerEnd
    match splitn2 32 header with
    | (tBytes, rest?) =>
      match objTypeOfBytes tBytes with
      | .error e => .err e
      | .ok t =>
        match rest? with
        | none => .err "Missing size spec in header."
        | some sizeBytes =>
          match decBytes? sizeBytes with
          | none => .err "Invalid size spec in header."
          | some size =>
            let body := bytes.drop (headerEnd + 1)
            if body.length ≠ size then
              .err "Expected and actual size of object do not match."
            else
              match t with
              | .commit => parseCommit body
              | .tree => parseTree body
              | .blob => .ok (.blob body)
              | .tag => .err "Unsupported object type."

/-- The loose-object store: id bytes to stored (framed) bytes. -/
abbrev Store := List (List Nat × List Nat)

/-- Store a file, overwriting any previous content at the same id
(File::create truncates). -/
def storeInsert (id v : List Nat) (s : Store) : Store :=
  if s.any (fun kv => kv.1 = id) then
    s.map (fun kv => if kv.1 = id then (id, v) else kv)
  else s ++ [(id, v)]

/-- Look a file up by id. -/
def storeLookup (id : List Nat) : Store → Option (List Nat)
  | [] => none
  | kv :: s => if kv.1 = id then some kv.2 else storeLookup id s

/-- write_gen (src/obj.rs line 206-218): frame the payload, hash the framed
bytes to get the id, store the deflated framed bytes under the id. The
sha1hex parameter is sha::print_from, the hex SHA-1 of the input. Framing a
tag panics in as_str. -/
def writeGen (sha1hex : List Nat → List Nat) (store : Store) (t : ObjType)
    (content : List Nat) : Res (Store × List Nat) :=
  match t with
  | .tag => .panicked "Unsupported object type tag."
  | _ =>
    let framed := frame t content
    let id := sha1hex framed
    .ok (storeInsert id framed store, id)

/-- obj::write with precomputed content (src/obj.rs line 220-226), used by
commit-tree: the caller hashes the already-framed bytes itself. -/
def writeRaw (store : Store) (id content : List Nat) : Store :=
  storeInsert id content store

/-- read_gen from the store (open the file at the id-derived path, inflate,
parse): lookup then parse the framed bytes. -/
def readGen (store : Store) (id : List Nat) : Res Obj :=
  match storeLookup id store with
  | none => .err "Failed to read object."
  | some bytes => readObjBytes bytes

/-- The commit payload rendered by commit::new (src/obj.rs line 82-86):
tree line, optional parent line, author and committer lines, blank line,
message, trailing newline. The timestamp is the decimal of ts. -/
def commitData (tree : List Nat) (parent : Option (List Nat))
    (msg user email : List Nat) (ts : Nat) : List Nat :=
  let committer := user ++ strBytes " <" ++ email ++ strBytes "> " ++
    natToDecBytes ts ++ strBytes " +0000"
  let parentLine := match parent with
    | some p => strBytes "parent " ++ p ++ [10]
    | none => []
  strBytes "tree " ++ tree ++ [10] ++ parentLine ++
    strBytes "author " ++ committer ++ [10] ++
    strBytes "committer " ++ committer ++ [10, 10] ++ msg ++ [10]

/-- commit::new (src/obj.rs line 77-90): the payload wrapped in the commit
framing (the same bytes the format string there produces). -/
def commitNew (tree : List Nat) (parent : Option (List Nat))
    (msg user email : List Nat) (ts : Nat) : List Nat :=
  frame .commit (commitData tree parent msg user email ts)

/-- blob::from_file (src/obj.rs line 63-75): read_to_string fails unless
the file bytes are valid UTF-8; on success the blob framing is rendered
around the bytes (the length of a Rust String is its byte length). -/
def blobFromFile (content : List Nat) : Except String (List Nat) :=
  match utf8Decode content with
  | none => .error "Failed to read file: stream did not contain valid UTF-8."
  | some _ =>
    .ok (strBytes "blob " ++ natToDecBytes content.length ++ [0] ++ content)

/-- Rendering of one tree entry as produced by write_tree
(src/wtree.rs line 62-78): six-digit zero-padded mode, space, name, NUL,
then the 20 raw bytes of the id (Sha::to_bytes of the hex form). -/
def renderTreeEntry (e : TreeEntry) : List Nat :=
  let d := natToDecBytes e.mode
  (List.replicate (6 - d.length) 48 ++ d) ++ [32] ++ e.name ++ [0] ++
    ((hexDecode? e.id).getD [])

/-- The tree payload: concatenation of the rendered entries. -/
def renderTreeEntries (es : List TreeEntry) : List Nat :=
  (es.map renderTreeEntry).flatten

/-- Well-formedness of a tree entry for the round-trip: the name contains
no NUL and no space and is valid UTF-8, and the id is 40 lowercase hex
characters. The no-space conjunct is a real exclusion, not bookkeeping:
parse_tree splits the mode-name field on every space (src/obj.rs line
177), so a name containing a space is truncated on read and the
round-trip fails for it. -/
def entryWF (e : TreeEntry) : Prop :=
  0 ∉ e.name ∧ 32 ∉ e.name ∧ (utf8Decode e.name).isSome = true ∧
  e.id.length = 40 ∧ ∀ c ∈ e.id, (48 ≤ c ∧ c ≤ 57) ∨ (97 ≤ c ∧ c ≤ 102)

instance (e : TreeEntry) : Decidable (entryWF e) := by
  unfold entryWF; infer_instance

/-! Pack format and delta resolver (src/pack.rs, module fmt). Bytes::split_to
and slice indexing panic when out of range; that is modelled with
Res.panicked. Bit tests on a byte b are b / 2^i % 2, matching the masks in
the source for byte values below 256. -/

/-- Bit i of byte b. -/
def bit (i b : Nat) : Bool := b / 2 ^ i % 2 = 1

/-- A byte with the continuation bit (0x80) clear. -/
def noContBit (b : Nat) : Bool := ¬ bit 7 b

/-- Bytes::split_to: panics when more is requested than available. -/
def splitTo (n : Nat) (bs : List Nat) : Res (List Nat × List Nat) :=
  if n ≤ bs.length then .ok (bs.take n, bs.drop n)
  else .panicked "split_to out of range"

/-- Value of a variable-length integer: 7 payload bits per byte, low order
first (the or of disjointly shifted chunks equals their sum). -/
def varIntVal : List Nat → Nat
  | [] => 0
  | b :: rest => b % 128 + 128 * varIntVal rest

/-- parse_var_int (src/pack.rs line 277-291): consume bytes through the
first one with a clear continuation bit. -/
def parseVarInt (bs : List Nat) : Res (Nat × List Nat) :=
  match findPosBy noContBit bs with
  | none => .err "Never ending variable sized integer."
  | some i => .ok (varIntVal (bs.take (i + 1)), bs.drop (i + 1))

/-- A delta instruction (src/pack.rs Instr). -/
inductive Instr where
  | copy (start stop : Nat)
  | insert (data : List Nat)
deriving DecidableEq

/-- Read one byte when the flag is set, else contribute zero. -/
def readIf (cond : Bool) (bs : List Nat) : Res (Nat × List Nat) :=
  if cond then
    match bs with
    | [] => .panicked "split_to out of range"
    | b :: rest => .ok (b, rest)
  else .ok (0, bs)

/-- parse_copy_instr (src/pack.rs line 235-267) after the instruction byte
has been split off: bits 0..3 select the little-endian offset bytes, bits
4..6 the little-endian size bytes; missing bytes are zero. The size is used
as decoded; zero stays zero. -/
def parseCopyInstr (instr : Nat) (bs : List Nat) : Res (Instr × List Nat) := do
  let (o0, bs) ← readIf (bit 0 instr) bs
  let (o1, bs) ← readIf (bit 1 instr) bs
  let (o2, bs) ← readIf (bit 2 instr) bs
  let (o3, bs) ← readIf (bit 3 instr) bs
  let (l0, bs) ← readIf (bit 4 instr) bs
  let (l1, bs) ← readIf (bit 5 instr) bs
  let (l2, bs) ← readIf (bit 6 instr) bs
  let offset := o0 + 256 * o1 + 65536 * o2 + 16777216 * o3
  let len := l0 + 256 * l1 + 65536 * l2
  pure (.copy offset (offset + len), bs)

/-- parse_insert_instr (src/pack.rs line 269-275). -/
def parseInsertInstr (instr : Nat) (bs : List Nat) : Res (Instr × List Nat) :=
  (splitTo (instr % 128) bs).map' (fun p => (.insert p.1, p.2))

/-- parse_instr (src/pack.rs line 224-233): first() on an empty buffer is
an unwrap panic; 0 is the reserved instruction. -/
def parseInstr : List Nat → Res (Instr × List Nat)
  | [] => .panicked "unwrap on None"
  | b :: rest =>
    if b = 0 then .err "Encountered reserved delta instruction 0x0."
    else if bit 7 b then parseCopyInstr b rest
    else parseInsertInstr b rest

/-- Applying one instruction to the accumulating target. A copy slices
base[start..stop] and panics when the range leaves the base. -/
def applyInstr (base content : List Nat) : Instr → Res (List Nat)
  | .copy s e =>
    if s ≤ e ∧ e ≤ base.length then .ok (content ++ ((base.drop s).take (e - s)))
    else .panicked "range end index out of range for slice"
  | .insert data => .ok (content ++ data)

/-- The instruction loop of undeltify, fueled by the delta length (each
instruction consumes at least its one instruction byte). -/
def undeltifyLoop : Nat → List Nat → List Nat → List Nat → Res (List Nat)
  | _, [], _, content => .ok content
  | 0, _ :: _, _, _ => .err "out of fuel"
  | fuel + 1, d, base, content => do
    let (instr, rest) ← parseInstr d
    let content2 ← applyInstr base content instr
    undeltifyLoop fuel rest base content2

/-- undeltify (src/pack.rs line 195-222): source and target lengths, the
source length must match the base, then the instruction loop, then the
target length must match the result. -/
def undeltify (delta base : List Nat) : Res (List Nat) := do
  let (sourceLen, d) ← parseVarInt delta
  let (targetLen, d) ← parseVarInt d
  if sourceLen ≠ base.length then
    .err "Delta source length did not match length of base data."
  else do
    let content ← undeltifyLoop d.length d base []
    if targetLen ≠ content.length then
      .err "Delta target length did not match length of undeltified data."
    else pure content

/-- Pack entry types (src/pack.rs EntryType) by their numeric tag. -/
def entryTypeOf (n : Nat) : Except String Nat :=
  if n = 1 ∨ n = 2 ∨ n = 3 ∨ n = 4 ∨ n = 6 ∨ n = 7 then .ok n
  else .error "Unknown entry type."

/-- EntryType::try_into ObjType (src/pack.rs line 123-135). -/
def objTypeOfEntry (n : Nat) : Except String ObjType :=
  if n = 1 then .ok .commit
  else if n = 2 then .ok .tree
  else if n = 3 then .ok .blob
  else if n = 4 then .ok .tag
  else .error "Entry type is not a proper object type."

/-- The in-memory delta-base cache: id to (entry type, raw payload). -/
abbrev ObjMap := List (List Nat × (ObjType × List Nat))

def objMapInsert (id : List Nat) (v : ObjType × List Nat) (m : ObjMap) :
    ObjMap :=
  if m.any (fun kv => kv.1 = id) then
    m.map (fun kv => if kv.1 = id then (id, v) else kv)
  else m ++ [(id, v)]

def objMapLookup (id : List Nat) : ObjMap → Option (ObjType × List Nat)
  | [] => none
  | kv :: m => if kv.1 = id then some kv.2 else objMapLookup id m

/-- Bytes::advance: drop n consumed bytes, panicking past the end. -/
def advanceBy (n : Nat) (bs : List Nat) : Res (List Nat) :=
  if n ≤ bs.length then .ok (bs.drop n) else .panicked "advance out of range"

/-- The entry loop of unpack_objects (src/pack.rs line 148-193), fueled by
the pack length (each iteration consumes at least the first header byte).
inflate is the zlib codec interface returning the inflated bytes and the
number of compressed bytes consumed; sha1hex names objects. The loop
returns the updated store and cache; unpack_objects returns the size of
the cache. -/
def unpackLoop (inflate : List Nat → Res (List Nat × Nat))
    (sha1hex : List Nat → List Nat) :
    Nat → List Nat → Store → ObjMap → Res (Store × ObjMap)
  | _, [], store, objs => .ok (store, objs)
  | 0, _ :: _, _, _ => .err "out of fuel"
  | fuel + 1, pack, store, objs =>
    match entryTypeOf (pack.headD 0 / 16 % 8) with
    | .error e => .err e
    | .ok t =>
      match findPosBy noContBit pack with
      | none => .err "Never ending variable sized integer."
      | some objStart =>
        let pack1 := pack.drop (objStart + 1)
        if t = 1 ∨ t = 2 ∨ t = 3 then do
          let (content, deflatedLen) ← inflate pack1
          match objTypeOfEntry t with
          | .error e => .err e
          | .ok ot => do
            let (store2, id) ← writeGen sha1hex store ot content
            let objs2 := objMapInsert id (ot, content) objs
            let pack2 ← advanceBy deflatedLen pack1
            unpackLoop inflate sha1hex fuel pack2 store2 objs2
        else if t = 7 then do
          let (baseIdRaw, pack2) ← splitTo 20 pack1
          let baseId := printHex baseIdRaw
          let (delta, deflatedLen) ← inflate pack2
          match objMapLookup baseId objs with
          | some base => do
            let content ← undeltify delta base.2
            let (store2, id) ← writeGen sha1hex store base.1 content
            let objs2 := objMapInsert id (base.1, content) objs
            let pack3 ← advanceBy deflatedLen pack2
            unpackLoop inflate sha1hex fuel pack3 store2 objs2
          | none => .err "Found delta referencing unknown base object."
        else .err "Unsupported entry type."

/-- unpack_objects: run the loop on the pack body and return how many
distinct objects were persisted (the size of the cache map). -/
def unpackObjects (inflate : List Nat → Res (List Nat × Nat))
    (sha1hex : List Nat → List Nat) (pack : List Nat) : Res (Store × Nat) :=
  (unpackLoop inflate sha1hex pack.length pack [] []).map'
    (fun r => (r.1, r.2.length))

/-- parse_checksum (src/pack.rs line 301-310): split the final 20 bytes
off, hash the rest, compare the two Sha values (hex strings). sha1raw is
the raw 20-byte SHA-1 digest function. A pack shorter than 20 bytes makes
split_off panic. -/
def parseChecksum (sha1raw : List Nat → List Nat) (pack : List Nat) :
    Res (List Nat) :=
  if pack.length < 20 then .panicked "split_off out of range"
  else
    let pre := pack.take (pack.length - 20)
    let trailer := pack.drop (pack.length - 20)
    if printHex (sha1raw pre) ≠ printHex trailer then
      .err "Pack file corrupted: checksum mismatch."
    else .ok pre

/-- parse_signature (src/pack.rs line 312-318). -/
def parseSignature (pack : List Nat) : Res (List Nat) := do
  let (sig, rest) ← splitTo 4 pack
  if sig = strBytes "PACK" then pure rest
  else .err "Missing signature PACK."

/-- Big-endian u32 of exactly four bytes. -/
def be32 (bs : List Nat) : Nat :=
  match bs with
  | [a, b, c, d] => a * 16777216 + b * 65536 + c * 256 + d
  | _ => 0

/-- parse_version (src/pack.rs line 320-327): version must be 2. -/
def parseVersion (pack : List Nat) : Res (List Nat) := do
  let (ver, rest) ← splitTo 4 pack
  if be32 ver = 2 then pure rest
  else .err "Unsupported pack version. Expected version 2."

/-- parse_obj_count (src/pack.rs line 329-333). -/
def parseObjCount (pack : List Nat) : Res (Nat × List Nat) :=
  (splitTo 4 pack).map' (fun p => (be32 p.1, p.2))

/-- parse_header (src/pack.rs line 293-299): checksum first, then
signature, version and object count; returns the count and the body. -/
def parseHeader (sha1raw : List Nat → List Nat) (pack : List Nat) :
    Res (Nat × List Nat) := do
  let pre ← parseChecksum sha1raw pack
  let p1 ← parseSignature pre
  let p2 ← parseVersion p1
  parseObjCount p2

/-- The pack pipeline as driven by clone: validate and parse the header,
unpack the body, report the header count and the persisted count. -/
def processPack (inflate : List Nat → Res (List Nat × Nat))
    (sha1raw : List Nat → List Nat) (pack : List Nat) : Res (Nat × Nat) := do
  let (n, body) ← parseHeader sha1raw pack
  let (_, persisted) ← unpackObjects inflate (fun bs => printHex (sha1raw bs))
    body
  pure (n, persisted)

/-- Count of persisted objects determined by the pack body alone. -/
def unpackCount (inflate : List Nat → Res (List Nat × Nat))
    (sha1raw : List Nat → List Nat) (body : List Nat) : Res Nat :=
  (unpackObjects inflate (fun bs => printHex (sha1raw bs)) body).map'
    (fun r => r.2)

/-- A version-2 pack with the given count field and body, checksummed with
sha1raw (the trailer is the digest of everything before it). -/
def packWith (sha1raw : List Nat → List Nat) (cnt body : List Nat) :
    List Nat :=
  let pre := strBytes "PACK" ++ [0, 0, 0, 2] ++ cnt ++ body
  pre ++ sha1raw pre

/-- A stand-in 20-byte digest used to instantiate the black-box SHA-1
interface on concrete inputs: the input padded or truncated to 20 bytes. -/
def sha20 (bs : List Nat) : List Nat := (bs ++ List.replicate 20 0).take 20

/-- A stand-in codec instance for the black-box inflate interface on
concrete inputs: a stored stream is one length byte followed by that many
literal bytes; it reports the inflated bytes and the consumed count. -/
def inflateStored : List Nat → Res (List Nat × Nat)
  | [] => .err "corrupt deflate stream"
  | n :: rest =>
    if n ≤ rest.length then .ok (rest.take n, n + 1)
    else .err "corrupt deflate stream"

/-! Repository init (src/repo.rs line 15-23). The filesystem is a set of
directory paths and a map from file paths to contents; paths are segment
lists. create_dir_all succeeds on existing directories and fails when a
path component is a regular file; fs::write overwrites an existing file and
fails when the target is a directory or the parent directory is missing. -/

structure FS where
  dirs : List (List String)
  files : List (List String × String)
deriving DecidableEq

/-- All nonempty prefixes of a path, shortest first. -/
def pathPrefixes (p : List String) : List (List String) :=
  (List.range p.length).map (fun i => p.take (i + 1))

/-- Is p a regular file in fs. -/
def isFileIn (fs : FS) (p : List String) : Bool :=
  fs.files.any (fun kv => kv.1 = p)

/-- Add a directory path if not already present. -/
def dirInsert (p : List String) (dirs : List (List String)) :
    List (List String) :=
  if p ∈ dirs then dirs else dirs ++ [p]

/-- fs::create_dir_all. -/
def createDirAll (fs : FS) (p : List String) : Except String FS :=
  if (pathPrefixes p).any (isFileIn fs) then .error "File exists"
  else .ok { fs with
    dirs := (pathPrefixes p).foldl (fun d q => dirInsert q d) fs.dirs }

/-- Overwrite or add a file entry. -/
def setFile (p : List String) (c : String)
    (files : List (List String × String)) : List (List String × String) :=
  if files.any (fun kv => kv.1 = p) then
    files.map (fun kv => if kv.1 = p then (p, c) else kv)
  else files ++ [(p, c)]

/-- fs::write. -/
def fsWrite (fs : FS) (p : List String) (c : String) : Except String FS :=
  if p ∈ fs.dirs then .error "Is a directory"
  else if p.dropLast ≠ [] ∧ p.dropLast ∉ fs.dirs then
    .error "No such file or directory"
  else .ok { fs with files := setFile p c fs.files }

/-- repo::init (src/repo.rs line 15-23): create the four directory trees
under path/.git and write HEAD. Returns the new filesystem and the .git
path. -/
def gitInit (path : List String) (fs : FS) :
    Except String (FS × List String) := do
  let gd := path ++ [".git"]
  let fs1 ← createDirAll fs (gd ++ ["objects", "info"])
  let fs2 ← createDirAll fs1 (gd ++ ["objects", "pack"])
  let fs3 ← createDirAll fs2 (gd ++ ["refs", "heads"])
  let fs4 ← createDirAll fs3 (gd ++ ["refs", "tags"])
  let fs5 ← fsWrite fs4 (gd ++ ["HEAD"]) "ref: refs/heads/master\n"
  pure (fs5, gd)

/-- The five paths gitInit touches, for stating when it can run at all. -/
def initDirPaths (path : List String) : List (List String) :=
  [path ++ [".git", "objects", "info"], path ++ [".git", "objects", "pack"],
   path ++ [".git", "refs", "heads"], path ++ [".git", "refs", "tags"]]

/-- The directory list after create_dir_all on p: all prefixes of p added. -/
def dirsWithPath (p : List String) (d : List (List String)) :
    List (List String) :=
  (pathPrefixes p).foldl (fun d q => dirInsert q d) d

/-- The directory list produced by a successful gitInit: all prefixes of
its four directory paths added to the existing directories. -/
def initDirsAfter (path : List String) (d : List (List String)) :
    List (List String) :=
  dirsWithPath (path ++ [".git", "refs", "tags"])
    (dirsWithPath (path ++ [".git", "refs", "heads"])
      (dirsWithPath (path ++ [".git", "objects", "pack"])
        (dirsWithPath (path ++ [".git", "objects", "info"]) d)))

/-- gitInit is unobstructed when no prefix of its four directory paths is a
regular file and HEAD is not a directory. Files elsewhere, in particular
object files below .git/objects, are no obstruction. -/
def initUnobstructed (path : List String) (fs : FS) : Prop :=
  (∀ q ∈ initDirPaths path, ∀ r ∈ pathPrefixes q, isFileIn fs r = false) ∧
  (path ++ [".git", "HEAD"]) ∉ fs.dirs

instance (path : List String) (fs : FS) :
    Decidable (initUnobstructed path fs) := by
  unfold initUnobstructed; infer_instance

/-- Is an Except result a success. -/
def exceptOk {α : Type} : Except String α → Bool
  | .ok _ => true
  | .error _ => false

/-! Supporting lemmas. -/

theorem decDigitsAux_lt_ten (fuel n : Nat) :
    ∀ d ∈ decDigitsAux fuel n, d < 10 := by
  induction fuel generalizing n with
  | zero => intro d hd; simp [decDigitsAux] at hd
  | succ fuel ih =>
    intro d hd
    match n with
    | 0 => simp [decDigitsAux] at hd
    | m + 1 =>
      simp only [decDigitsAux, List.mem_cons] at hd
      rcases hd with h | h
      · omega
      · exact ih _ d h

theorem decDigitsAux_val (fuel n : Nat) (h : n ≤ fuel) :
    (decDigitsAux fuel n).foldr (fun d a => d + 10 * a) 0 = n := by
  induction fuel generalizing n with
  | zero => match n with
    | 0 => simp [decDigitsAux]
  | succ fuel ih =>
    match n with
    | 0 => simp [decDigitsAux]
    | m + 1 =>
      have h2 : (m + 1) / 10 ≤ fuel := by
        have := Nat.div_le_self (m + 1) 10
        have := Nat.div_lt_self (Nat.succ_pos m) (by omega : 1 < 10)
        omega
      simp only [decDigitsAux, List.foldr_cons, ih _ h2]
      omega

theorem decDigitsAux_ne_nil (fuel n : Nat) (hn : n ≠ 0) (hf : fuel ≠ 0) :
    decDigitsAux fuel n ≠ [] := by
  match fuel, n with
  | fuel + 1, m + 1 => simp [decDigitsAux]

theorem natToDecBytes_bounds (n : Nat) :
    ∀ b ∈ natToDecBytes n, 48 ≤ b ∧ b ≤ 57 := by
  intro b hb
  unfold natToDecBytes at hb
  split at hb
  · simp at hb; omega
  · simp only [List.mem_map, List.mem_reverse] at hb
    obtain ⟨d, hd, rfl⟩ := hb
    have := decDigitsAux_lt_ten n n d hd
    omega

theorem natToDecBytes_ne_nil (n : Nat) : natToDecBytes n ≠ [] := by
  unfold natToDecBytes
  split
  · simp
  · rename_i h
    simp only [ne_eq, List.map_eq_nil_iff, List.reverse_eq_nil_iff]
    exact decDigitsAux_ne_nil n n h h

theorem foldl_digits_val (l : List Nat) (acc : Nat) :
    (l.reverse.map (· + 48)).foldl (fun a b => 10 * a + (b - 48)) acc =
      acc * 10 ^ l.length + l.foldr (fun d a => d + 10 * a) 0 := by
  induction l generalizing acc with
  | nil => simp
  | cons d l ih =>
    simp only [List.reverse_cons, List.map_append, List.foldl_append,
      List.map_cons, List.map_nil, List.foldl_cons, List.foldl_nil, ih,
      List.length_cons, List.foldr_cons]
    have hd : d + 48 - 48 = d := by omega
    rw [hd]
    ring

theorem decBytes?_natToDecBytes (n : Nat) :
    decBytes? (natToDecBytes n) = some n := by
  unfold decBytes?
  rw [if_pos]
  · congr 1
    unfold natToDecBytes
    split
    · simp_all
    · rw [foldl_digits_val]
      simp [decDigitsAux_val n n (le_refl n)]
  · constructor
    · exact natToDecBytes_ne_nil n
    · rw [List.all_eq_true]
      intro b hb
      have := natToDecBytes_bounds n b hb
      simp [isDigitByte]
      omega

theorem foldl_dec_zeros (k : Nat) (l : List Nat) :
    (List.replicate k 48 ++ l).foldl (fun a b => 10 * a + (b - 48)) 0 =
      l.foldl (fun a b => 10 * a + (b - 48)) 0 := by
  induction k with
  | zero => simp
  | succ k ih => simpa [List.replicate_succ] using ih

theorem decBytes?_pad (k n : Nat) :
    decBytes? (List.replicate k 48 ++ natToDecBytes n) = some n := by
  unfold decBytes?
  rw [if_pos]
  · rw [foldl_dec_zeros]
    have h := decBytes?_natToDecBytes n
    unfold decBytes? at h
    rw [if_pos] at h
    · exact h
    · constructor
      · exact natToDecBytes_ne_nil n
      · rw [List.all_eq_true]
        intro b hb
        have := natToDecBytes_bounds n b hb
        simp [isDigitByte]; omega
  · constructor
    · intro hnil
      have h2 := congrArg List.length hnil
      simp at h2
      exact natToDecBytes_ne_nil n h2.2
    · rw [List.all_eq_true]
      intro b hb
      simp only [List.mem_append, List.mem_replicate] at hb
      rcases hb with ⟨_, rfl⟩ | hb
      · simp [isDigitByte]
      · have := natToDecBytes_bounds n b hb
        simp [isDigitByte]; omega

theorem findPosBy_append_none (p : Nat → Bool) (l1 l2 : List Nat)
    (h : findPosBy p l1 = none) :
    findPosBy p (l1 ++ l2) = (findPosBy p l2).map (· + l1.length) := by
  induction l1 with
  | nil =>
    simp only [List.nil_append, List.length_nil]
    cases findPosBy p l2 <;> simp
  | cons b l1 ih =>
    simp only [findPosBy] at h
    split at h
    · simp at h
    · rename_i hb
      cases hf : findPosBy p l1 with
      | some j => simp [hf] at h
      | none =>
        rw [List.cons_append]
        show (if p b then some 0 else (findPosBy p (l1 ++ l2)).map (· + 1)) = _
        rw [if_neg hb, ih hf, List.length_cons]
        cases findPosBy p l2 with
        | none => rfl
        | some j => simp [Nat.add_assoc]

theorem findPosBy_none_iff (p : Nat → Bool) (l : List Nat) :
    findPosBy p l = none ↔ ∀ b ∈ l, p b = false := by
  induction l with
  | nil => simp [findPosBy]
  | cons b l ih =>
    simp only [findPosBy, List.mem_cons]
    constructor
    · intro h
      split at h
      · simp at h
      · rename_i hb
        cases hf : findPosBy p l with
        | none =>
          intro c hc
          rcases hc with rfl | hc
          · simpa using hb
          · exact (ih.mp hf) c hc
        | some j => simp [hf] at h
    · intro h
      rw [if_neg (by simp [h b (Or.inl rfl)])]
      rw [ih.mpr (fun c hc => h c (Or.inr hc))]
      rfl

theorem findPos_none_iff (b : Nat) (l : List Nat) :
    findPos b l = none ↔ b ∉ l := by
  unfold findPos
  rw [findPosBy_none_iff]
  constructor
  · intro h hb
    have := h b hb
    simp at this
  · intro h c hc
    simp only [decide_eq_false_iff_not]
    intro rfl_eq
    exact h (rfl_eq ▸ hc)

theorem findPos_first (b : Nat) (l1 l2 : List Nat) (h : b ∉ l1) :
    findPos b (l1 ++ b :: l2) = some l1.length := by
  unfold findPos
  rw [findPosBy_append_none _ _ _ ((findPos_none_iff b l1).mpr h)]
  simp [findPosBy]

theorem hexDig_inj (m n : Nat) (hm : m < 16) (hn : n < 16)
    (h : hexDig m = hexDig n) : m = n := by
  unfold hexDig at h
  split at h <;> split at h <;> omega

theorem printHex_cons (b : Nat) (bs : List Nat) :
    printHex (b :: bs) = hexDig (b / 16) :: hexDig (b % 16) :: printHex bs := by
  simp [printHex]

theorem printHex_inj (a b : List Nat) (ha : ∀ x ∈ a, x < 256)
    (hb : ∀ x ∈ b, x < 256) (h : printHex a = printHex b) : a = b := by
  induction a generalizing b with
  | nil =>
    cases b with
    | nil => rfl
    | cons y ys => simp [printHex] at h
  | cons x xs ih =>
    cases b with
    | nil => simp [printHex] at h
    | cons y ys =>
      rw [printHex_cons, printHex_cons] at h
      injection h with h1 h2
      injection h2 with h2 h3
      have hx := ha x (List.mem_cons_self x xs)
      have hy := hb y (List.mem_cons_self y ys)
      have e1 : x / 16 = y / 16 :=
        hexDig_inj _ _ (by omega) (by omega) h1
      have e2 : x % 16 = y % 16 :=
        hexDig_inj _ _ (by omega) (by omega) h2
      have hxy : x = y := by omega
      rw [hxy, ih ys (fun z hz => ha z (List.mem_cons_of_mem x hz))
        (fun z hz => hb z (List.mem_cons_of_mem y hz)) h3]

/-- A lowercase hex digit byte as it appears in ids emitted by the core. -/
def isLowHex (c : Nat) : Prop := (48 ≤ c ∧ c ≤ 57) ∨ (97 ≤ c ∧ c ≤ 102)

theorem hexVal?_isLowHex (c : Nat) (h : isLowHex c) :
    ∃ x, hexVal? c = some x ∧ x < 16 ∧ hexDig x = c := by
  unfold isLowHex at h
  unfold hexVal? hexDig
  rcases h with ⟨h1, h2⟩ | ⟨h1, h2⟩
  · exact ⟨c - 48, by rw [if_pos (by omega)], by omega, by
      rw [if_pos (by omega)]; omega⟩
  · refine ⟨c - 87, ?_, by omega, by rw [if_neg (by omega)]; omega⟩
    rw [if_neg (by omega), if_pos (by omega)]

theorem hexDecode?_valid : ∀ (s : List Nat), s.length % 2 = 0 →
    (∀ c ∈ s, isLowHex c) →
    ∃ bs, hexDecode? s = some bs ∧ printHex bs = s ∧
      2 * bs.length = s.length
  | [], _, _ => ⟨[], rfl, rfl, rfl⟩
  | [_], hlen, _ => by simp at hlen
  | a :: b :: rest, hlen, hhex => by
    have hrest : rest.length % 2 = 0 := by simp at hlen; omega
    obtain ⟨bs, hbs, hp, hl⟩ :=
      hexDecode?_valid rest hrest (fun c hc => hhex c (by simp [hc]))
    obtain ⟨x, hx, hx16, hxd⟩ := hexVal?_isLowHex a (hhex a (by simp))
    obtain ⟨y, hy, hy16, hyd⟩ := hexVal?_isLowHex b (hhex b (by simp))
    refine ⟨(16 * x + y) :: bs, ?_, ?_, by simp; omega⟩
    · simp [hexDecode?, hx, hy, hbs]
    · rw [printHex_cons]
      have e1 : (16 * x + y) / 16 = x := by omega
      have e2 : (16 * x + y) % 16 = y := by omega
      rw [e1, e2, hxd, hyd, hp]

theorem objTypeOfBytes_name (t : ObjType) :
    objTypeOfBytes (objTypeName t) = .ok t := by
  cases t <;> rfl

theorem readObjBytes_frame (t : ObjType) (content : List Nat) :
    readObjBytes (frame t content) =
      match t with
      | .commit => parseCommit content
      | .tree => parseTree content
      | .blob => .ok (.blob content)
      | .tag => .err "Unsupported object type." := by
  have hname0 : (0 : Nat) ∉ objTypeName t := by cases t <;> decide
  have hname32 : (32 : Nat) ∉ objTypeName t := by cases t <;> decide
  have hframe : frame t content =
      (objTypeName t ++ 32 :: natToDecBytes content.length) ++ 0 :: content := by
    simp [frame]
  have hH0 : (0 : Nat) ∉ objTypeName t ++ 32 :: natToDecBytes content.length := by
    intro hmem
    simp only [List.mem_append, List.mem_cons] at hmem
    rcases hmem with h | h | h
    · exact hname0 h
    · exact absurd h (by decide)
    · have := natToDecBytes_bounds content.length 0 h; omega
  have hfind : findPos 0 (frame t content) =
      some (objTypeName t ++ 32 :: natToDecBytes content.length).length := by
    rw [hframe]; exact findPos_first 0 _ _ hH0
  have htake : (frame t content).take
      (objTypeName t ++ 32 :: natToDecBytes content.length).length =
      objTypeName t ++ 32 :: natToDecBytes content.length := by
    rw [hframe, List.take_left]
  have hdrop : (frame t content).drop
      ((objTypeName t ++ 32 :: natToDecBytes content.length).length + 1) =
      content := by
    rw [hframe, List.drop_append]
    simp
  have hsplit : splitn2 32
      (objTypeName t ++ 32 :: natToDecBytes content.length) =
      (objTypeName t, some (natToDecBytes content.length)) := by
    unfold splitn2
    rw [findPos_first 32 _ _ hname32]
    simp [List.drop_append]
  unfold readObjBytes
  rw [hfind]
  simp only [htake, hsplit, objTypeOfBytes_name, decBytes?_natToDecBytes, hdrop]
  rw [if_neg (by simp)]

theorem storeLookup_insert (id v : List Nat) (s : Store) :
    storeLookup id (storeInsert id v s) = some v := by
  unfold storeInsert
  split
  · rename_i hany
    induction s with
    | nil => simp at hany
    | cons kv s ih =>
      simp only [List.map_cons, storeLookup]
      by_cases hkv : kv.1 = id
      · simp [hkv]
      · rw [if_neg hkv]
        simp only [if_neg hkv, storeLookup]
        apply ih
        simp only [List.any_cons, Bool.or_eq_true] at hany
        rcases hany with h | h
        · exact absurd (by simpa using h) hkv
        · simpa using h
  · induction s with
    | nil => simp [storeLookup]
    | cons kv s ih =>
      rename_i hany
      simp only [List.any_cons, Bool.or_eq_true, not_or] at hany
      simp only [List.cons_append, storeLookup]
      rw [if_neg (by simpa using hany.1)]
      exact ih (by simpa using hany.2)

theorem readGen_storeInsert (store : Store) (id f : List Nat) :
    readGen (storeInsert id f store) id = readObjBytes f := by
  unfold readGen
  rw [storeLookup_insert]

theorem parseCommit_commitData (tree : List Nat) (parent : Option (List Nat))
    (msg user email : List Nat) (ts : Nat) (h10 : 10 ∉ tree)
    (hutf : (utf8Decode tree).isSome = true) :
    parseCommit (commitData tree parent msg user email ts) =
      .ok (.commit tree) := by
  have hdata : commitData tree parent msg user email ts =
      (strBytes "tree" ++ 32 :: tree) ++ 10 ::
        ((match parent with
          | some p => strBytes "parent " ++ p ++ [10]
          | none => []) ++
          strBytes "author " ++ (user ++ strBytes " <" ++ email ++
            strBytes "> " ++ natToDecBytes ts ++ strBytes " +0000") ++ [10] ++
          strBytes "committer " ++ (user ++ strBytes " <" ++ email ++
            strBytes "> " ++ natToDecBytes ts ++ strBytes " +0000") ++
          [10, 10] ++ msg ++ [10]) := by
    simp [commitData, strBytes]
  have hline0 : (10 : Nat) ∉ strBytes "tree" ++ 32 :: tree := by
    intro hmem
    simp only [List.mem_append, List.mem_cons] at hmem
    rcases hmem with h | h | h
    · revert h; decide
    · exact absurd h (by decide)
    · exact h10 h
  have hfind : findPos 10 (commitData tree parent msg user email ts) =
      some (strBytes "tree" ++ 32 :: tree).length := by
    rw [hdata]; exact findPos_first 10 _ _ hline0
  have htake : (commitData tree parent msg user email ts).take
      (strBytes "tree" ++ 32 :: tree).length =
      strBytes "tree" ++ 32 :: tree := by
    rw [hdata, List.take_left]
  have hsplit : splitn2 32 (strBytes "tree" ++ 32 :: tree) =
      (strBytes "tree", some tree) := by
    unfold splitn2
    rw [findPos_first 32 _ _ (by decide)]
    simp [List.drop_append]
  unfold parseCommit
  rw [hfind]
  simp only [htake, hsplit]
  rw [if_neg (by simp), hutf]
  simp

theorem splitFirst2_mid (pre name : List Nat) (hpre : 32 ∉ pre)
    (hname : 32 ∉ name) :
    splitFirst2 32 (pre ++ 32 :: name) = (pre, some name) := by
  have hdrop : (pre ++ 32 :: name).drop (pre.length + 1) = name := by
    rw [List.drop_append]; simp
  unfold splitFirst2
  simp only [findPos_first 32 _ _ hpre, hdrop,
    (findPos_none_iff 32 name).mpr hname, List.take_left]

theorem parseTreeLoop_render : ∀ (es : List TreeEntry) (fuel : Nat),
    (∀ e ∈ es, entryWF e) → (renderTreeEntries es).length ≤ fuel →
    parseTreeLoop fuel (renderTreeEntries es) = .ok es
  | [], fuel, _, _ => by
    have h : renderTreeEntries [] = [] := rfl
    rw [h]
    unfold parseTreeLoop
    rfl
  | e :: rest, fuel, hwf, hfuel => by
    obtain ⟨h0, h32, hu, hlen40, hlow⟩ := hwf e (List.mem_cons_self e rest)
    obtain ⟨ib, hib, hprint, hiblen⟩ :=
      hexDecode?_valid e.id (by rw [hlen40]) (fun c hc => hlow c hc)
    have hib20 : ib.length = 20 := by omega
    have hrte : renderTreeEntries (e :: rest) =
        renderTreeEntry e ++ renderTreeEntries rest := by
      simp [renderTreeEntries]
    have hpad48 : ∀ b ∈ List.replicate (6 - (natToDecBytes e.mode).length) 48
        ++ natToDecBytes e.mode, 48 ≤ b ∧ b ≤ 57 := by
      intro b hb
      simp only [List.mem_append, List.mem_replicate] at hb
      rcases hb with ⟨_, rfl⟩ | hb
      · omega
      · exact natToDecBytes_bounds _ b hb
    have hre : renderTreeEntry e ++ renderTreeEntries rest =
        ((List.replicate (6 - (natToDecBytes e.mode).length) 48 ++
          natToDecBytes e.mode) ++ 32 :: e.name) ++
          0 :: (ib ++ renderTreeEntries rest) := by
      simp [renderTreeEntry, hib]
    have hM0 : (0 : Nat) ∉ (List.replicate (6 - (natToDecBytes e.mode).length)
        48 ++ natToDecBytes e.mode) ++ 32 :: e.name := by
      intro hmem
      simp only [List.mem_append, List.mem_cons] at hmem
      rcases hmem with h | h | h
      · have := hpad48 0 (by simpa using h); omega
      · exact absurd h (by decide)
      · exact h0 h
    have hfind : findPos 0 (renderTreeEntries (e :: rest)) =
        some ((List.replicate (6 - (natToDecBytes e.mode).length) 48 ++
          natToDecBytes e.mode) ++ 32 :: e.name).length := by
      rw [hrte, hre]; exact findPos_first 0 _ _ hM0
    have hlen : (renderTreeEntries (e :: rest)).length =
        ((List.replicate (6 - (natToDecBytes e.mode).length) 48 ++
          natToDecBytes e.mode) ++ 32 :: e.name).length + 21 +
          (renderTreeEntries rest).length := by
      rw [hrte, hre]
      simp [hib20]
      omega
    match fuel with
    | 0 => exact absurd hfuel (by rw [hlen]; omega)
    | f + 1 =>
      unfold parseTreeLoop
      rw [hfind]
      have htakeM : (renderTreeEntries (e :: rest)).take
          ((List.replicate (6 - (natToDecBytes e.mode).length) 48 ++
            natToDecBytes e.mode) ++ 32 :: e.name).length =
          (List.replicate (6 - (natToDecBytes e.mode).length) 48 ++
            natToDecBytes e.mode) ++ 32 :: e.name := by
        rw [hrte, hre, List.take_left]
      have hsplit : splitFirst2 32
          ((List.replicate (6 - (natToDecBytes e.mode).length) 48 ++
            natToDecBytes e.mode) ++ 32 :: e.name) =
          (List.replicate (6 - (natToDecBytes e.mode).length) 48 ++
            natToDecBytes e.mode, some e.name) := by
        apply splitFirst2_mid
        · intro hmem; have := hpad48 32 hmem; omega
        · exact h32
      have hdrop1 : (renderTreeEntries (e :: rest)).drop
          (((List.replicate (6 - (natToDecBytes e.mode).length) 48 ++
            natToDecBytes e.mode) ++ 32 :: e.name).length + 1) =
          ib ++ renderTreeEntries rest := by
        rw [hrte, hre, List.drop_append]; simp
      have hdrop21 : (renderTreeEntries (e :: rest)).drop
          (((List.replicate (6 - (natToDecBytes e.mode).length) 48 ++
            natToDecBytes e.mode) ++ 32 :: e.name).length + 1 + 20) =
          renderTreeEntries rest := by
        rw [hrte, hre, Nat.add_assoc, List.drop_append]
        rw [show (0 : Nat) :: (ib ++ renderTreeEntries rest) =
          ((0 : Nat) :: ib) ++ renderTreeEntries rest from by simp]
        exact List.drop_left' (by simp [hib20])
      have htake20 : List.take 20 (ib ++ renderTreeEntries rest) = ib :=
        List.take_left' hib20
      simp only [htakeM, hsplit, decBytes?_pad, hu, if_true]
      rw [if_neg (by rw [hlen]; omega)]
      rw [hdrop1, htake20, hprint, hdrop21]
      rw [parseTreeLoop_render rest f
        (fun x hx => hwf x (List.mem_cons_of_mem e hx))
        (by rw [hlen] at hfuel; omega)]
      rfl

@[simp] theorem res_bind_ok {α β : Type} (a : α) (f : α → Res β) :
    (Res.ok a >>= f) = f a := rfl

@[simp] theorem res_bind_err {α β : Type} (m : String) (f : α → Res β) :
    (Res.err m >>= f) = Res.err m := rfl

@[simp] theorem res_bind_panicked {α β : Type} (m : String) (f : α → Res β) :
    (Res.panicked m >>= f) = Res.panicked m := rfl

@[simp] theorem res_pure_eq_ok {α : Type} (a : α) :
    (pure a : Res α) = Res.ok a := rfl

@[simp] theorem res_map'_ok {α β : Type} (f : α → β) (a : α) :
    Res.map' f (Res.ok a) = Res.ok (f a) := rfl

@[simp] theorem res_map'_err {α β : Type} (f : α → β) (m : String) :
    Res.map' f (Res.err m) = Res.err m := rfl

@[simp] theorem res_map'_panicked {α β : Type} (f : α → β) (m : String) :
    Res.map' f (Res.panicked m) = Res.panicked m := rfl

@[simp] theorem except_bind_ok {α β : Type} (a : α)
    (f : α → Except String β) : (Except.ok a >>= f) = f a := rfl

@[simp] theorem except_bind_error {α β : Type} (m : String)
    (f : α → Except String β) : (Except.error m >>= f) = Except.error m := rfl

@[simp] theorem except_pure_eq_ok {α : Type} (a : α) :
    (pure a : Except String α) = Except.ok a := rfl

theorem parseChecksum_packWith (sha : List Nat → List Nat)
    (cnt body : List Nat) (hs : (sha (strBytes "PACK" ++ [0, 0, 0, 2] ++ cnt
      ++ body)).length = 20) :
    parseChecksum sha (packWith sha cnt body) =
      .ok (strBytes "PACK" ++ [0, 0, 0, 2] ++ cnt ++ body) := by
  have hplen : (packWith sha cnt body).length =
      (strBytes "PACK" ++ [0, 0, 0, 2] ++ cnt ++ body).length + 20 := by
    unfold packWith
    rw [List.length_append, hs]
  unfold parseChecksum
  rw [hplen]
  rw [if_neg (by omega)]
  have hsub : (strBytes "PACK" ++ [0, 0, 0, 2] ++ cnt ++ body).length + 20 -
      20 = (strBytes "PACK" ++ [0, 0, 0, 2] ++ cnt ++ body).length := by omega
  rw [hsub]
  rw [show packWith sha cnt body =
    (strBytes "PACK" ++ [0, 0, 0, 2] ++ cnt ++ body) ++
      sha (strBytes "PACK" ++ [0, 0, 0, 2] ++ cnt ++ body) from rfl]
  rw [List.take_left, List.drop_left]
  rw [if_neg (by simp)]

theorem parseSignature_pack (rest : List Nat) :
    parseSignature (strBytes "PACK" ++ rest) = .ok rest := by
  unfold parseSignature splitTo
  rw [if_pos (by simp [strBytes])]
  rw [List.take_left' (by rfl), List.drop_left' (by rfl)]
  simp

theorem parseVersion_two (rest : List Nat) :
    parseVersion ([0, 0, 0, 2] ++ rest) = .ok rest := by
  unfold parseVersion splitTo
  rw [if_pos (by simp)]
  rw [List.take_left' (by rfl), List.drop_left' (by rfl)]
  simp [be32]

theorem parseObjCount_split (cnt body : List Nat) (h4 : cnt.length = 4) :
    parseObjCount (cnt ++ body) = .ok (be32 cnt, body) := by
  unfold parseObjCount splitTo
  rw [if_pos (by simp; omega)]
  rw [List.take_left' h4, List.drop_left' h4]
  rfl

theorem parseHeader_packWith (sha : List Nat → List Nat) (cnt body : List Nat)
    (h4 : cnt.length = 4) (hs : ∀ bs, (sha bs).length = 20) :
    parseHeader sha (packWith sha cnt body) = .ok (be32 cnt, body) := by
  unfold parseHeader
  rw [parseChecksum_packWith sha cnt body (hs _)]
  rw [show strBytes "PACK" ++ [0, 0, 0, 2] ++ cnt ++ body =
    strBytes "PACK" ++ ([0, 0, 0, 2] ++ (cnt ++ body)) from by simp]
  simp only [res_bind_ok, parseSignature_pack, parseVersion_two,
    parseObjCount_split cnt body h4]

/-- Claim C5 (confirmed): for every pack whose trailing 20 bytes differ
from the SHA-1 of all preceding bytes, parse_header fails with the
checksum-mismatch error. The pack is otherwise unconstrained — in
particular its first 12 bytes need not be a valid header — so the trailer
check fires before the signature, version and object count are consumed. -/
theorem c5_checksum_first (sha : List Nat → List Nat)
    (pack : List Nat) (hlen : 20 ≤ pack.length)
    (hpack : ∀ b ∈ pack, b < 256) (hsha : ∀ bs, ∀ b ∈ sha bs, b < 256)
    (hne : pack.drop (pack.length - 20) ≠ sha (pack.take (pack.length - 20))) :
    parseHeader sha pack = .err "Pack file corrupted: checksum mismatch." := by
  unfold parseHeader parseChecksum
  rw [if_neg (by omega)]
  rw [if_pos]
  · rfl
  · intro hhex
    have heq := printHex_inj (sha (pack.take (pack.length - 20)))
      (pack.drop (pack.length - 20)) (hsha _)
      (fun b hb => hpack b (List.mem_of_mem_drop hb)) hhex
    exact hne heq.symm

theorem mem_dirInsert (q r : List String) (d : List (List String)) :
    q ∈ dirInsert r d ↔ q = r ∨ q ∈ d := by
  unfold dirInsert
  split
  · rename_i hr
    constructor
    · exact Or.inr
    · rintro (rfl | h)
      · exact hr
      · exact h
  · simp [List.mem_append, or_comm]

theorem mem_foldl_dirInsert (l : List (List String))
    (d : List (List String)) (q : List String) :
    q ∈ l.foldl (fun d r => dirInsert r d) d ↔ q ∈ d ∨ q ∈ l := by
  induction l generalizing d with
  | nil => simp
  | cons a l ih =>
    simp only [List.foldl_cons, ih, mem_dirInsert, List.mem_cons]
    tauto

theorem foldl_dirInsert_of_subset (l : List (List String))
    (d : List (List String)) (h : ∀ q ∈ l, q ∈ d) :
    l.foldl (fun d r => dirInsert r d) d = d := by
  induction l with
  | nil => rfl
  | cons a l ih =>
    simp only [List.foldl_cons]
    rw [show dirInsert a d = d from by
      unfold dirInsert; rw [if_pos (h a (List.mem_cons_self a l))]]
    exact ih (fun q hq => h q (List.mem_cons_of_mem a hq))

theorem any_key_setFile (files : List (List String × String))
    (p r : List String) (c : String) :
    ((setFile p c files).any (fun kv => kv.1 = r) = true) ↔
      (files.any (fun kv => kv.1 = r) = true ∨ r = p) := by
  unfold setFile
  split
  · rename_i hany
    simp only [List.any_eq_true, List.mem_map, decide_eq_true_eq] at hany ⊢
    constructor
    · rintro ⟨kv, ⟨kv0, hkv0, rfl⟩, hr⟩
      by_cases hp : kv0.1 = p
      · rw [if_pos hp] at hr
        exact Or.inr hr.symm
      · rw [if_neg hp] at hr
        exact Or.inl ⟨kv0, hkv0, hr⟩
    · rintro (⟨kv, hkv, hr⟩ | hrp)
      · by_cases hp : kv.1 = p
        · obtain ⟨kv1, hkv1, hp1⟩ := hany
          refine ⟨(p, c), ⟨kv1, hkv1, ?_⟩, ?_⟩
          · rw [if_pos hp1]
          · rw [← hp, hr]
        · exact ⟨kv, ⟨kv, hkv, by rw [if_neg hp]⟩, hr⟩
      · obtain ⟨kv1, hkv1, hp1⟩ := hany
        exact ⟨(p, c), ⟨kv1, hkv1, by rw [if_pos hp1]⟩, hrp.symm⟩
  · simp only [List.any_eq_true, List.mem_append, decide_eq_true_eq,
      List.mem_singleton]
    constructor
    · rintro ⟨kv, hkv | hkv, hr⟩
      · exact Or.inl ⟨kv, hkv, hr⟩
      · subst hkv
        exact Or.inr hr.symm
    · rintro (⟨kv, hkv, hr⟩ | hrp)
      · exact ⟨kv, Or.inl hkv, hr⟩
      · exact ⟨(p, c), Or.inr rfl, hrp.symm⟩

theorem setFile_idem (files : List (List String × String))
    (p : List String) (c : String) :
    setFile p c (setFile p c files) = setFile p c files := by
  by_cases hc : (files.any fun kv => kv.1 = p) = true
  · have h1 : setFile p c files =
        files.map (fun kv => if kv.1 = p then (p, c) else kv) := by
      unfold setFile; rw [if_pos hc]
    rw [h1]
    have hany2 : ((files.map (fun kv => if kv.1 = p then (p, c) else kv)).any
        fun kv => kv.1 = p) = true := by
      rw [← h1, any_key_setFile]
      exact Or.inr rfl
    unfold setFile
    rw [if_pos hany2, List.map_map]
    apply List.map_congr_left
    intro kv _
    by_cases hp : kv.1 = p
    · simp [Function.comp, hp]
    · simp [Function.comp, hp]
  · have h1 : setFile p c files = files ++ [(p, c)] := by
      unfold setFile; rw [if_neg hc]
    rw [h1]
    have hany2 : ((files ++ [(p, c)]).any fun kv => kv.1 = p) = true := by
      simp
    unfold setFile
    rw [if_pos hany2, List.map_append]
    congr 1
    · have hid : ∀ kv ∈ files,
          (if kv.1 = p then (p, c) else kv) = id kv := by
        intro kv hkv
        rw [if_neg]
        · rfl
        · intro hp
          apply hc
          rw [List.any_eq_true]
          exact ⟨kv, hkv, by simp [hp]⟩
      rw [List.map_congr_left hid, List.map_id]
    · simp

theorem createDirAll_eq (fs : FS) (p : List String)
    (h : ∀ r ∈ pathPrefixes p, isFileIn fs r = false) :
    createDirAll fs p = .ok { fs with dirs := dirsWithPath p fs.dirs } := by
  unfold createDirAll
  rw [if_neg (by
    intro hany
    obtain ⟨r, hr, hfile⟩ := List.any_eq_true.mp hany
    rw [h r hr] at hfile
    exact Bool.false_ne_true hfile)]
  rfl

theorem mem_dirsWithPath (p : List String) (d : List (List String))
    (q : List String) :
    q ∈ dirsWithPath p d ↔ q ∈ d ∨ q ∈ pathPrefixes p :=
  mem_foldl_dirInsert (pathPrefixes p) d q

theorem dirsWithPath_of_subset (p : List String) (d : List (List String))
    (h : ∀ q ∈ pathPrefixes p, q ∈ d) : dirsWithPath p d = d :=
  foldl_dirInsert_of_subset (pathPrefixes p) d h

theorem createDirAll_of_sub (fs : FS) (p : List String)
    (hfiles : ∀ r ∈ pathPrefixes p, isFileIn fs r = false)
    (hdirs : ∀ q ∈ pathPrefixes p, q ∈ fs.dirs) :
    createDirAll fs p = .ok fs := by
  rw [createDirAll_eq fs p hfiles, dirsWithPath_of_subset _ _ hdirs]

theorem fsWrite_eq (fs : FS) (p : List String) (c : String)
    (h1 : p ∉ fs.dirs) (h2 : p.dropLast = [] ∨ p.dropLast ∈ fs.dirs) :
    fsWrite fs p c = .ok { fs with files := setFile p c fs.files } := by
  unfold fsWrite
  rw [if_neg h1, if_neg (by
    rintro ⟨hne, hnm⟩
    rcases h2 with h | h
    · exact hne h
    · exact hnm h)]

theorem headPath_notin_prefixes (path : List String) (x y : String)
    (hx : x ≠ "HEAD") :
    (path ++ [".git", "HEAD"]) ∉ pathPrefixes (path ++ [".git", x, y]) := by
  intro hmem
  simp only [pathPrefixes, List.mem_map, List.mem_range] at hmem
  obtain ⟨i, hi, heq⟩ := hmem
  have hilen : i < path.length + 3 := by
    simpa using hi
  have hlen := congrArg List.length heq
  simp only [List.length_take, List.length_append] at hlen
  have hi2 : i + 1 = path.length + 2 := by
    simp only [List.length_cons, List.length_nil] at hlen hilen ⊢
    omega
  rw [hi2, List.take_append] at heq
  have hcut := List.append_cancel_left heq
  have ht : ([".git", x, y] : List String).take 2 = [".git", x] := rfl
  rw [ht] at hcut
  simp only [List.cons.injEq, and_true] at hcut
  exact hx hcut.2

theorem gitdir_mem_prefixes (path : List String) (x y : String) :
    (path ++ [".git"]) ∈ pathPrefixes (path ++ [".git", x, y]) := by
  simp only [pathPrefixes, List.mem_map, List.mem_range]
  refine ⟨path.length, by simp, ?_⟩
  rw [List.take_append]
  rfl

theorem dropLast_headPath (path : List String) :
    (path ++ [".git", "HEAD"]).dropLast = path ++ [".git"] := by
  rw [show path ++ [".git", "HEAD"] =
    (path ++ [".git"]) ++ ["HEAD"] from by simp]
  simp

theorem mem_initDirsAfter (path : List String) (d : List (List String))
    (q : List String) :
    q ∈ initDirsAfter path d ↔ q ∈ d ∨
      q ∈ pathPrefixes (path ++ [".git", "objects", "info"]) ∨
      q ∈ pathPrefixes (path ++ [".git", "objects", "pack"]) ∨
      q ∈ pathPrefixes (path ++ [".git", "refs", "heads"]) ∨
      q ∈ pathPrefixes (path ++ [".git", "refs", "tags"]) := by
  unfold initDirsAfter
  simp only [mem_dirsWithPath]
  tauto

theorem headPath_notin_initDirsAfter (path : List String)
    (d : List (List String)) (hd : (path ++ [".git", "HEAD"]) ∉ d) :
    (path ++ [".git", "HEAD"]) ∉ initDirsAfter path d := by
  rw [mem_initDirsAfter]
  rintro (h | h | h | h | h)
  · exact hd h
  · exact headPath_notin_prefixes path "objects" "info" (by decide) h
  · exact headPath_notin_prefixes path "objects" "pack" (by decide) h
  · exact headPath_notin_prefixes path "refs" "heads" (by decide) h
  · exact headPath_notin_prefixes path "refs" "tags" (by decide) h

theorem gitdir_mem_initDirsAfter (path : List String)
    (d : List (List String)) :
    (path ++ [".git"]) ∈ initDirsAfter path d := by
  rw [mem_initDirsAfter]
  exact Or.inr (Or.inl (gitdir_mem_prefixes path "objects" "info"))

theorem initDirsAfter_idem (path : List String) (d : List (List String)) :
    initDirsAfter path (initDirsAfter path d) = initDirsAfter path d := by
  have hsub1 : ∀ q ∈ pathPrefixes (path ++ [".git", "objects", "info"]),
      q ∈ initDirsAfter path d := by
    intro q hq; rw [mem_initDirsAfter]; tauto
  have hsub2 : ∀ q ∈ pathPrefixes (path ++ [".git", "objects", "pack"]),
      q ∈ initDirsAfter path d := by
    intro q hq; rw [mem_initDirsAfter]; tauto
  have hsub3 : ∀ q ∈ pathPrefixes (path ++ [".git", "refs", "heads"]),
      q ∈ initDirsAfter path d := by
    intro q hq; rw [mem_initDirsAfter]; tauto
  have hsub4 : ∀ q ∈ pathPrefixes (path ++ [".git", "refs", "tags"]),
      q ∈ initDirsAfter path d := by
    intro q hq; rw [mem_initDirsAfter]; tauto
  show dirsWithPath (path ++ [".git", "refs", "tags"])
      (dirsWithPath (path ++ [".git", "refs", "heads"])
        (dirsWithPath (path ++ [".git", "objects", "pack"])
          (dirsWithPath (path ++ [".git", "objects", "info"])
            (initDirsAfter path d)))) = initDirsAfter path d
  rw [dirsWithPath_of_subset _ _ hsub1, dirsWithPath_of_subset _ _ hsub2,
    dirsWithPath_of_subset _ _ hsub3, dirsWithPath_of_subset _ _ hsub4]

theorem gitInit_eq (path : List String) (fs : FS)
    (h : initUnobstructed path fs) :
    gitInit path fs = .ok
      ({ dirs := initDirsAfter path fs.dirs,
         files := setFile (path ++ [".git", "HEAD"])
           "ref: refs/heads/master\n" fs.files },
       path ++ [".git"]) := by
  obtain ⟨hfile, hhead⟩ := h
  have ha1 : (path ++ [".git"]) ++ ["objects", "info"] =
      path ++ [".git", "objects", "info"] := by simp
  have ha2 : (path ++ [".git"]) ++ ["objects", "pack"] =
      path ++ [".git", "objects", "pack"] := by simp
  have ha3 : (path ++ [".git"]) ++ ["refs", "heads"] =
      path ++ [".git", "refs", "heads"] := by simp
  have ha4 : (path ++ [".git"]) ++ ["refs", "tags"] =
      path ++ [".git", "refs", "tags"] := by simp
  have haH : (path ++ [".git"]) ++ ["HEAD"] = path ++ [".git", "HEAD"] := by
    simp
  have hf1 : ∀ r ∈ pathPrefixes (path ++ [".git", "objects", "info"]),
      isFileIn fs r = false :=
    fun r hr => hfile _ (by simp [initDirPaths]) r hr
  have hf2 : ∀ r ∈ pathPrefixes (path ++ [".git", "objects", "pack"]),
      isFileIn fs r = false :=
    fun r hr => hfile _ (by simp [initDirPaths]) r hr
  have hf3 : ∀ r ∈ pathPrefixes (path ++ [".git", "refs", "heads"]),
      isFileIn fs r = false :=
    fun r hr => hfile _ (by simp [initDirPaths]) r hr
  have hf4 : ∀ r ∈ pathPrefixes (path ++ [".git", "refs", "tags"]),
      isFileIn fs r = false :=
    fun r hr => hfile _ (by simp [initDirPaths]) r hr
  unfold gitInit
  simp only [ha1, ha2, ha3, ha4, haH]
  rw [createDirAll_eq fs _ hf1]
  simp only [except_bind_ok]
  rw [createDirAll_eq
    { dirs := dirsWithPath (path ++ [".git", "objects", "info"]) fs.dirs,
      files := fs.files } _ hf2]
  simp only [except_bind_ok]
  rw [createDirAll_eq
    { dirs := dirsWithPath (path ++ [".git", "objects", "pack"])
        (dirsWithPath (path ++ [".git", "objects", "info"]) fs.dirs),
      files := fs.files } _ hf3]
  simp only [except_bind_ok]
  rw [createDirAll_eq
    { dirs := dirsWithPath (path ++ [".git", "refs", "heads"])
        (dirsWithPath (path ++ [".git", "objects", "pack"])
          (dirsWithPath (path ++ [".git", "objects", "info"]) fs.dirs)),
      files := fs.files } _ hf4]
  simp only [except_bind_ok]
  rw [fsWrite_eq
    { dirs := dirsWithPath (path ++ [".git", "refs", "tags"])
        (dirsWithPath (path ++ [".git", "refs", "heads"])
          (dirsWithPath (path ++ [".git", "objects", "pack"])
            (dirsWithPath (path ++ [".git", "objects", "info"]) fs.dirs))),
      files := fs.files } _ _
    (headPath_notin_initDirsAfter path fs.dirs hhead)
    (Or.inr (by
      rw [dropLast_headPath]
      exact gitdir_mem_initDirsAfter path fs.dirs))]
  simp only [except_bind_ok, except_pure_eq_ok]
  rfl

theorem initUnobstructed_after (path : List String) (fs : FS)
    (h : initUnobstructed path fs) :
    initUnobstructed path
      { dirs := initDirsAfter path fs.dirs,
        files := setFile (path ++ [".git", "HEAD"])
          "ref: refs/heads/master\n" fs.files } := by
  obtain ⟨hfile, hhead⟩ := h
  constructor
  · intro q hq r hr
    have hne : r ≠ path ++ [".git", "HEAD"] := by
      intro hrH
      subst hrH
      simp only [initDirPaths, List.mem_cons, List.not_mem_nil,
        or_false] at hq
      rcases hq with rfl | rfl | rfl | rfl
      · exact headPath_notin_prefixes path "objects" "info" (by decide) hr
      · exact headPath_notin_prefixes path "objects" "pack" (by decide) hr
      · exact headPath_notin_prefixes path "refs" "heads" (by decide) hr
      · exact headPath_notin_prefixes path "refs" "tags" (by decide) hr
    have hnot : ¬ ((setFile (path ++ [".git", "HEAD"])
        "ref: refs/heads/master\n" fs.files).any
          (fun kv => kv.1 = r) = true) := by
      rw [any_key_setFile]
      rintro (htrue | hrp)
      · have hfalse := hfile q hq r hr
        unfold isFileIn at hfalse
        rw [hfalse] at htrue
        exact Bool.false_ne_true htrue
      · exact hne hrp
    cases hb : isFileIn
        { dirs := initDirsAfter path fs.dirs,
          files := setFile (path ++ [".git", "HEAD"])
            "ref: refs/heads/master\n" fs.files } r with
    | false => rfl
    | true => exact absurd hb hnot
  · exact headPath_notin_initDirsAfter path fs.dirs hhead

/-! The claim theorems. -/

set_option maxRecDepth 8192 in
/-- Claim C1 (counterexample): the round-trip fails for commits and for
tree entries whose name contains a space. Two distinct commits, differing
only in their message, are written as distinct byte sequences yet read
back as the same object, because parse_commit keeps only the tree line:
the parent, author, committer and message do not survive the read. And a
tree whose single entry is named with a space in it does not read back to
itself: parse_tree splits the mode-name field on every space
(src/obj.rs line 177) and takes only the second component, so the name
comes back truncated at its first space. -/
theorem c1_roundtrip_counterexample :
    commitNew (List.replicate 40 97) none (strBytes "message one")
      (strBytes "bert2") (strBytes "shuairan@gmail.com") 0 ≠
    commitNew (List.replicate 40 97) none (strBytes "message two")
      (strBytes "bert2") (strBytes "shuairan@gmail.com") 0 ∧
    readObjBytes (commitNew (List.replicate 40 97) none
      (strBytes "message one") (strBytes "bert2")
      (strBytes "shuairan@gmail.com") 0) =
      .ok (.commit (List.replicate 40 97)) ∧
    readObjBytes (commitNew (List.replicate 40 97) none
      (strBytes "message two") (strBytes "bert2")
      (strBytes "shuairan@gmail.com") 0) =
      .ok (.commit (List.replicate 40 97)) ∧
    readObjBytes (frame .tree (renderTreeEntries
      [⟨100644, strBytes "a b",
        strBytes "95d09f2b10159347eece71399a7e2e907ea3df4f"⟩])) =
      .ok (.tree [⟨100644, strBytes "a",
        strBytes "95d09f2b10159347eece71399a7e2e907ea3df4f"⟩]) ∧
    readObjBytes (frame .tree (renderTreeEntries
      [⟨100644, strBytes "a b",
        strBytes "95d09f2b10159347eece71399a7e2e907ea3df4f"⟩])) ≠
      .ok (.tree [⟨100644, strBytes "a b",
        strBytes "95d09f2b10159347eece71399a7e2e907ea3df4f"⟩]) :=
  ⟨by decide, by decide, by decide, by decide, by decide⟩

/-- Claim C1 (amended): the write-then-read round-trip holds byte-exact
for blobs, for any digest function and prior store. For trees it holds
entry-exact exactly on well-formed entries — in particular only when no
entry name contains a space: parse_tree splits the mode-name field on
every space, so a name with a space reads back truncated (the C1
counterexample exhibits this at a concrete input, so the entryWF
hypothesis here is load-bearing, not a convenience). For commits, only
the tree field survives the read — parent, author, committer and message
are discarded by parse_commit. -/
theorem c1_roundtrip_amended (sha1hex : List Nat → List Nat) (store : Store)
    (content tree : List Nat) (parent : Option (List Nat))
    (msg user email : List Nat) (ts : Nat) (entries : List TreeEntry)
    (htree10 : 10 ∉ tree) (htreeu : (utf8Decode tree).isSome = true)
    (hwf : ∀ e ∈ entries, entryWF e) :
    (writeGen sha1hex store .blob content >>= fun p => readGen p.1 p.2) =
      .ok (.blob content) ∧
    (writeGen sha1hex store .tree (renderTreeEntries entries) >>=
      fun p => readGen p.1 p.2) = .ok (.tree entries) ∧
    readGen (writeRaw store
        (sha1hex (commitNew tree parent msg user email ts))
        (commitNew tree parent msg user email ts))
      (sha1hex (commitNew tree parent msg user email ts)) =
      .ok (.commit tree) := by
  refine ⟨?_, ?_, ?_⟩
  · have hw : writeGen sha1hex store .blob content =
        .ok (storeInsert (sha1hex (frame .blob content))
          (frame .blob content) store, sha1hex (frame .blob content)) := rfl
    rw [hw, res_bind_ok, readGen_storeInsert, readObjBytes_frame]
  · have hw : writeGen sha1hex store .tree (renderTreeEntries entries) =
        .ok (storeInsert (sha1hex (frame .tree (renderTreeEntries entries)))
          (frame .tree (renderTreeEntries entries)) store,
          sha1hex (frame .tree (renderTreeEntries entries))) := rfl
    rw [hw, res_bind_ok, readGen_storeInsert, readObjBytes_frame]
    show parseTree (renderTreeEntries entries) = .ok (.tree entries)
    unfold parseTree
    rw [parseTreeLoop_render entries _ hwf (le_refl _)]
    rfl
  · unfold writeRaw
    rw [readGen_storeInsert]
    show readObjBytes (frame .commit (commitData tree parent msg user
      email ts)) = .ok (.commit tree)
    rw [readObjBytes_frame]
    show parseCommit (commitData tree parent msg user email ts) =
      .ok (.commit tree)
    exact parseCommit_commitData tree parent msg user email ts htree10 htreeu

set_option maxRecDepth 8192 in
/-- Witness for C1 (amended) at a concrete digest stub, empty store, a
blob containing a NUL byte, a one-entry tree and a concrete commit. -/
theorem c1_roundtrip_amended_witness :
    (10 ∉ (List.replicate 40 97 : List Nat)) ∧
    ((utf8Decode (List.replicate 40 97)).isSome = true) ∧
    (∀ e ∈ [(⟨100644, strBytes "a",
        strBytes "95d09f2b10159347eece71399a7e2e907ea3df4f"⟩ : TreeEntry)],
      entryWF e) ∧
    ((writeGen (fun bs => bs) [] .blob [104, 0, 108] >>=
        fun p => readGen p.1 p.2) = .ok (.blob [104, 0, 108]) ∧
      (writeGen (fun bs => bs) [] .tree (renderTreeEntries
          [⟨100644, strBytes "a",
            strBytes "95d09f2b10159347eece71399a7e2e907ea3df4f"⟩]) >>=
        fun p => readGen p.1 p.2) =
        .ok (.tree [⟨100644, strBytes "a",
          strBytes "95d09f2b10159347eece71399a7e2e907ea3df4f"⟩]) ∧
      readGen (writeRaw []
          ((fun bs => bs) (commitNew (List.replicate 40 97) none
            (strBytes "init") (strBytes "bert2") (strBytes "e") 0))
          (commitNew (List.replicate 40 97) none (strBytes "init")
            (strBytes "bert2") (strBytes "e") 0))
        ((fun bs => bs) (commitNew (List.replicate 40 97) none
          (strBytes "init") (strBytes "bert2") (strBytes "e") 0)) =
        .ok (.commit (List.replicate 40 97))) :=
  ⟨by decide, by decide, by decide,
    c1_roundtrip_amended (fun bs => bs) [] [104, 0, 108]
      (List.replicate 40 97) none (strBytes "init") (strBytes "bert2")
      (strBytes "e") 0
      [⟨100644, strBytes "a",
        strBytes "95d09f2b10159347eece71399a7e2e907ea3df4f"⟩]
      (by decide) (by decide) (by decide)⟩

/-- Claim C7 (counterexample): repository init succeeds on a filesystem
whose .git directory already contains an object file under objects/ab;
the claimed failure on pre-existing objects does not exist in repo::init. -/
theorem c7_init_with_objects_counterexample :
    exceptOk (gitInit []
      { dirs := [[".git"], [".git", "objects"], [".git", "objects", "info"],
                 [".git", "objects", "pack"], [".git", "objects", "ab"],
                 [".git", "refs"], [".git", "refs", "heads"],
                 [".git", "refs", "tags"]],
        files := [([".git", "objects", "ab", "cdef"], "object payload"),
                  ([".git", "HEAD"], "ref: refs/heads/master\n")] }) =
      true := by decide

/-- Claim C7 (amended): init succeeds on every filesystem where its
target paths are unobstructed — pre-existing directories and any files
below .git, objects included, are no obstruction — and it is idempotent:
running init again on the resulting state succeeds and leaves the state
unchanged. -/
theorem c7_init_amended (path : List String) (fs : FS)
    (h : initUnobstructed path fs) :
    exceptOk (gitInit path fs) = true ∧
    ∀ fs2 gd, gitInit path fs = .ok (fs2, gd) →
      gitInit path fs2 = .ok (fs2, gd) := by
  constructor
  · rw [gitInit_eq path fs h]
    rfl
  · intro fs2 gd hrun
    rw [gitInit_eq path fs h] at hrun
    injection hrun with hpair
    rw [Prod.mk.injEq] at hpair
    obtain ⟨h1, h2⟩ := hpair
    subst h1
    subst h2
    rw [gitInit_eq path _ (initUnobstructed_after path fs h)]
    show Except.ok
      (({ dirs := initDirsAfter path (initDirsAfter path fs.dirs),
          files := setFile (path ++ [".git", "HEAD"])
            "ref: refs/heads/master\n"
            (setFile (path ++ [".git", "HEAD"])
              "ref: refs/heads/master\n" fs.files) } : FS),
        path ++ [".git"]) = _
    rw [initDirsAfter_idem, setFile_idem]

/-- Witness for C7 (amended) at the concrete filesystem that already has
the .git tree and an object file. -/
theorem c7_init_amended_witness :
    initUnobstructed []
      { dirs := [[".git"], [".git", "objects"], [".git", "objects", "info"],
                 [".git", "objects", "pack"], [".git", "objects", "ab"],
                 [".git", "refs"], [".git", "refs", "heads"],
                 [".git", "refs", "tags"]],
        files := [([".git", "objects", "ab", "cdef"], "object payload"),
                  ([".git", "HEAD"], "ref: refs/heads/master\n")] } ∧
    exceptOk (gitInit []
      { dirs := [[".git"], [".git", "objects"], [".git", "objects", "info"],
                 [".git", "objects", "pack"], [".git", "objects", "ab"],
                 [".git", "refs"], [".git", "refs", "heads"],
                 [".git", "refs", "tags"]],
        files := [([".git", "objects", "ab", "cdef"], "object payload"),
                  ([".git", "HEAD"], "ref: refs/heads/master\n")] }) =
      true := by
  refine ⟨by decide, ?_⟩
  exact (c7_init_amended []
    { dirs := [[".git"], [".git", "objects"], [".git", "objects", "info"],
               [".git", "objects", "pack"], [".git", "objects", "ab"],
               [".git", "refs"], [".git", "refs", "heads"],
               [".git", "refs", "tags"]],
      files := [([".git", "objects", "ab", "cdef"], "object payload"),
                ([".git", "HEAD"], "ref: refs/heads/master\n")] }
    (by decide)).1

/-- Claim C2 (code bug): the claim asserts canonical tree order, where a
directory compares as its name with a trailing slash, so foo.txt must be
emitted before the directory foo. The code sorts by the plain name
(src/wtree.rs line 91), emitting the directory foo first: at the failing
input, writeTreeOrder produces foo before foo.txt while the spec order
canonicalTreeOrderSpec demands foo.txt before foo. -/
theorem c2_tree_sort_plain_name :
    writeTreeOrder [⟨strBytes "foo.txt", false⟩, ⟨strBytes "foo", true⟩] =
      [strBytes "foo", strBytes "foo.txt"] ∧
    canonicalTreeOrderSpec
      [⟨strBytes "foo.txt", false⟩, ⟨strBytes "foo", true⟩] =
      [strBytes "foo.txt", strBytes "foo"] :=
  ⟨by decide, by decide⟩

/-- Claim C3 (code bug): the claim (and spec section 4.7) says a copy
instruction with decoded size zero copies 0x10000 bytes. parse_copy_instr
keeps the decoded zero (src/pack.rs line 252-266), so the copy is empty:
on a delta whose only instruction is the copy byte 0x80 (no offset and no
size bytes, decoded size 0), undeltify succeeds with an empty target
instead of copying 0x10000 bytes. -/
theorem c3_zero_size_copy_is_empty :
    undeltify [3, 0, 128] [97, 98, 99] = .ok [] ∧
    parseCopyInstr 128 [] = .ok (.copy 0 0, []) :=
  ⟨by decide, by decide⟩

/-- Claim C4 (counterexample): a syntactically valid pack whose header
declares 7 objects but whose body holds a single blob entry is processed
to completion without error, persisting 1 object, not 7. The resolver
never compares the persisted count with the header count. -/
theorem c4_count_counterexample :
    processPack inflateStored sha20
      (packWith sha20 [0, 0, 0, 7] [48, 1, 97]) = .ok (7, 1) ∧
    (7 : Nat) ≠ 1 :=
  ⟨by decide, by decide⟩

/-- Claim C4 (amended): the number of objects unpack_objects persists is a
function of the pack body alone; the header count N is decoded and
returned but never compared against it, so the two agree only when the
body happens to contain that many entries. -/
theorem c4_count_amended (inflate : List Nat → Res (List Nat × Nat))
    (sha : List Nat → List Nat) (cnt body : List Nat) (h4 : cnt.length = 4)
    (hs : ∀ bs, (sha bs).length = 20) :
    processPack inflate sha (packWith sha cnt body) =
      (unpackCount inflate sha body).map' (fun k => (be32 cnt, k)) := by
  unfold processPack
  rw [parseHeader_packWith sha cnt body h4 hs]
  simp only [res_bind_ok]
  unfold unpackCount unpackObjects
  cases unpackLoop inflate (fun bs => printHex (sha bs)) body.length body []
      [] with
  | ok r => simp
  | err m => simp
  | panicked m => simp

/-- Witness for C4 (amended) at a concrete codec, digest, count field and
empty body. -/
theorem c4_count_amended_witness :
    ([0, 0, 0, 5] : List Nat).length = 4 ∧
    (∀ bs, (sha20 bs).length = 20) ∧
    processPack inflateStored sha20 (packWith sha20 [0, 0, 0, 5] []) =
      (unpackCount inflateStored sha20 []).map'
        (fun k => (be32 [0, 0, 0, 5], k)) := by
  refine ⟨by decide, ?_, ?_⟩
  · intro bs
    simp [sha20]
  · exact c4_count_amended inflateStored sha20 [0, 0, 0, 5] []
      (by decide) (fun bs => by simp [sha20])

/-- Witness for C5 at a concrete pack of 21 bytes whose trailer does not
match the stand-in digest. -/
theorem c5_checksum_first_witness :
    20 ≤ (List.replicate 21 1 : List Nat).length ∧
    (∀ b ∈ (List.replicate 21 1 : List Nat), b < 256) ∧
    (∀ bs, ∀ b ∈ (fun _ : List Nat => List.replicate 20 0) bs, b < 256) ∧
    (List.replicate 21 1 : List Nat).drop ((List.replicate 21 1 :
      List Nat).length - 20) ≠
      (fun _ : List Nat => List.replicate 20 0)
        ((List.replicate 21 1 : List Nat).take ((List.replicate 21 1 :
          List Nat).length - 20)) ∧
    parseHeader (fun _ : List Nat => List.replicate 20 0)
      (List.replicate 21 1) =
      .err "Pack file corrupted: checksum mismatch." := by
  refine ⟨by decide, by decide, ?_, by decide, ?_⟩
  · intro bs b hb
    simp only [List.mem_replicate] at hb
    omega
  · exact c5_checksum_first (fun _ => List.replicate 20 0)
      (List.replicate 21 1) (by decide) (by decide)
      (fun bs b hb => by simp only [List.mem_replicate] at hb; omega)
      (by decide)

/-- Claim C6 (counterexample): a 40-character string of uppercase Z, which
is not hex at all, is accepted by Sha::from_str; only the length is
checked. -/
theorem c6_nonhex_accepted_counterexample :
    shaFromStr (List.replicate 40 90) = .ok (List.replicate 40 90) := rfl

/-- Claim C6 (amended): identifier construction checks only the length:
it succeeds exactly on strings of 40 bytes, whatever their alphabet. -/
theorem c6_length_only_amended (s : List Nat) :
    exceptOk (shaFromStr s) = (s.length == 40) ∧
    (s.length = 40 → shaFromStr s = .ok s) := by
  constructor
  · unfold shaFromStr shaValidate
    by_cases h : s.length = 40
    · rw [if_pos h]
      simp [h, exceptOk]
    · rw [if_neg h]
      simp [h, exceptOk]
  · intro h
    unfold shaFromStr shaValidate
    rw [if_pos h]

/-- Witness for C6 (amended) at a concrete 40-byte string. -/
theorem c6_length_only_amended_witness :
    (List.replicate 40 97 : List Nat).length = 40 ∧
    shaFromStr (List.replicate 40 97) = .ok (List.replicate 40 97) :=
  ⟨by decide, (c6_length_only_amended (List.replicate 40 97)).2 (by decide)⟩

/-- Claim C8 (counterexample): the ref-discovery request that ls_remote
issues is not the upload-pack request the claim describes — its service
query names git-receive-pack. -/
theorem c8_ls_remote_url_counterexample :
    lsRemoteReq (strBytes "http://h") ≠
      { method := strBytes "GET",
        url := trimEndByte 47 (strBytes "http://h") ++
          strBytes "/info/refs?service=git-upload-pack" } := by
  decide

/-- Claim C8 (amended): ref discovery during clone (get_advertised_refs)
is an HTTP GET to the URL with trailing slashes trimmed followed by the
info/refs query for git-upload-pack; the ls-remote command instead issues
an HTTP GET with the query for git-receive-pack on the untrimmed URL. -/
theorem c8_discovery_url_amended (url : List Nat) :
    advertisedRefsReq url =
      { method := strBytes "GET",
        url := trimEndByte 47 url ++
          strBytes "/info/refs?service=git-upload-pack" } ∧
    lsRemoteReq url =
      { method := strBytes "GET",
        url := url ++ strBytes "/info/refs?service=git-receive-pack" } :=
  ⟨rfl, rfl⟩

/-- Claim C9 (confirmed): on a delta whose copy instruction reaches past
the base (offset 0, size 5, base of length 1), undeltify panics from
out-of-bounds slicing on the base rather than returning a CorruptDelta
error. -/
theorem c9_undeltify_oob_panics :
    undeltify [1, 5, 145, 0, 5] [97] =
      .panicked "range end index out of range for slice" ∧
    parseInstr [145, 0, 5] = .ok (.copy 0 5, []) ∧
    ([97] : List Nat).length < 5 :=
  ⟨by decide, by decide, by decide⟩

/-- Claim C10 (confirmed): blob creation from a file goes through
read_to_string, so every byte sequence that is not valid UTF-8 makes
blob::from_file fail with an error. -/
theorem c10_blob_requires_utf8 (content : List Nat)
    (h : utf8Decode content = none) :
    blobFromFile content =
      .error "Failed to read file: stream did not contain valid UTF-8." := by
  unfold blobFromFile
  rw [h]

/-- Witness for C10 at the concrete non-UTF-8 byte 0xFF. -/
theorem c10_blob_requires_utf8_witness :
    utf8Decode [255] = none ∧
    blobFromFile [255] =
      .error "Failed to read file: stream did not contain valid UTF-8." :=
  ⟨by decide, c10_blob_requires_utf8 [255] (by decide)⟩

end BYOG
